import Mathlib

/-!
Shallow embedding of `universe/provider.go` from the
`terraform-provider-universe` repository: the provider-identity resolver
(`getProviderNameFromBinaryOrEnvironment`), the resource-type registry
builder (`getResourceTypeNamesFromEnvironment`) and the configuration
normalizer (`providerConfigure`).

Ambient process state is passed explicitly: environment-variable lookup
(`os.LookupEnv`) becomes a function `String → Option String`, and the
process name `os.Args[0]` becomes an explicit `argv0 : String`.  The
schema-backed configuration reader (`ResourceLike.GetOk`) becomes a
function `String → Option GoValue`, where `GoValue` models the dynamic
`interface{}` values Go hands to the normalizer.
-/

/-- Constant `DefaultProviderName` from the source. -/
def DefaultProviderName : String := "universe"

/-- Constant `EnvProviderNameVar` from the source: name of the OS
environment variable that overrides the provider name. -/
def EnvProviderNameVar : String := "TERRAFORM_UNIVERSE_PROVIDERNAME"

/-- Model of Go `filepath.Base` on a Unix path: empty path yields `"."`;
otherwise trailing slashes are stripped, everything up to the last slash is
dropped, and a path made only of slashes yields `"/"`. -/
def filepathBase (p : String) : String :=
  if p.data.isEmpty then "."
  else
    let stripped := (p.data.reverse.dropWhile (fun c => c == '/')).reverse
    let nameRev := stripped.reverse.takeWhile (fun c => !(c == '/'))
    if nameRev.isEmpty then "/" else String.mk nameRev.reverse

/-- Whole-string match of the version group
`\d+(?:\.\d+(?:\.\d+)?)?` of the binary-name regex: one to three
dot-separated nonempty runs of ASCII digits.  The parse is deterministic
because a digit run can never absorb the literal dot that follows it. -/
def isVersion (cs : List Char) : Bool :=
  let d1 := cs.takeWhile Char.isDigit
  !d1.isEmpty &&
    match cs.dropWhile Char.isDigit with
    | [] => true
    | c :: r2 =>
      c == '.' &&
        (let d2 := r2.takeWhile Char.isDigit
         !d2.isEmpty &&
           match r2.dropWhile Char.isDigit with
           | [] => true
           | c2 :: r4 =>
             c2 == '.' &&
               (let d3 := r4.takeWhile Char.isDigit
                !d3.isEmpty && (r4.dropWhile Char.isDigit).isEmpty))

/-- Whole-string match of `pre\d*`, the body of the pre-release group of
the binary-name regex (after its leading dash). -/
def preBody (cs : List Char) : Bool :=
  match cs with
  | c1 :: c2 :: c3 :: ds => c1 == 'p' && c2 == 'r' && c3 == 'e' && ds.all Char.isDigit
  | _ => false

/-- Whole-string match of the optional trailing `(?:-pre\d*)?` after the
version group: either nothing, or a dash followed by `pre\d*`. -/
def optPre (cs : List Char) : Bool :=
  match cs with
  | [] => true
  | c :: rest => c == '-' && preBody rest

/-- Whole-string match of the part of the binary-name regex that follows
the name group: `(?:-(\d+(?:\.\d+(?:\.\d+)?)?))?(?:-pre\d*)?$`.  Either
the string is empty, or it starts with a dash followed by the pre-release
body alone, or by a version split at some position from the optional
pre-release suffix.  Only whether a decomposition exists matters here:
the alternatives do not touch the name capture group. -/
def tailMatches (cs : List Char) : Bool :=
  match cs with
  | [] => true
  | c :: rest =>
    c == '-' &&
      (preBody rest ||
        (List.range (rest.length + 1)).any
          (fun i => isVersion (rest.take i) && optPre (rest.drop i)))

/-- Backtracking search for the capture of the greedy name group
`[^\d]+`: Go's regexp has Perl capture semantics, so the group takes the
longest non-digit run whose remainder still matches the rest of the
pattern.  `findDown rest n` tries candidate name lengths `n, n-1, ..., 1`
and returns the first (longest) one whose tail matches. -/
def findDown (rest : List Char) : Nat → Option (List Char)
  | 0 => none
  | n + 1 =>
    if tailMatches (rest.drop (n + 1)) then some (rest.take (n + 1))
    else findDown rest n

/-- Characters of the literal anchor `terraform-provider-` of the regex. -/
def tfAnchor : List Char := "terraform-provider-".data

/-- Model of matching the binary name against the anchored regex
`^terraform-provider-(?:([^\d]+))(?:-(\d+(?:\.\d+(?:\.\d+)?)?))?(?:-pre\d*)?$`
and extracting capture group 1 (the provider name), as
`re.FindStringSubmatch` does in the source: `some name` when the whole
string matches (the name group taken greedily), `none` otherwise. -/
def findName (binaryName : String) : Option String :=
  if tfAnchor.isPrefixOf binaryName.data then
    let rest := binaryName.data.drop tfAnchor.length
    (findDown rest ((rest.takeWhile (fun c => !c.isDigit)).length)).map String.mk
  else none

/-- Source `getProviderNameFromBinaryOrEnvironment`: the override
environment variable wins when set (even when empty); otherwise the name
captured from the binary name (`filepath.Base` of `os.Args[0]`); otherwise
the fixed default.  Total: resolution always yields some string. -/
def getProviderNameFromBinaryOrEnvironment
    (env : String → Option String) (argv0 : String) : String :=
  match env EnvProviderNameVar with
  | some name => name
  | none =>
    match findName (filepathBase argv0) with
    | some name => name
    | none => DefaultProviderName

/-- White-space test used by Go `strings.Fields` (`unicode.IsSpace`),
restricted to the Latin-1 space characters. -/
def goIsSpace (c : Char) : Bool :=
  c == ' ' || c == '\t' || c == '\n' || c == '\x0b' || c == '\x0c' ||
    c == '\r' || c == '\x85' || c == '\xa0'

/-- Accumulator pass of `strings.Fields`: split into maximal runs of
non-space characters. -/
def fieldsAux : List Char → List Char → List (List Char)
  | [], acc => if acc.isEmpty then [] else [acc.reverse]
  | c :: cs, acc =>
    if goIsSpace c then
      if acc.isEmpty then fieldsAux cs [] else acc.reverse :: fieldsAux cs []
    else fieldsAux cs (c :: acc)

/-- Model of Go `strings.Fields`: the whitespace-separated tokens of a
string, in order. -/
def fields (s : String) : List String := (fieldsAux s.data []).map String.mk

/-- Model of Go `strings.ToUpper` on the ASCII range. -/
def goToUpper (s : String) : String := String.mk (s.data.map Char.toUpper)

/-- Name of the resource-type list variable derived from the provider
name: `"TERRAFORM_" + strings.ToUpper(providerName) + "_RESOURCETYPES"`. -/
def resourceTypesVarName (providerName : String) : String :=
  "TERRAFORM_" ++ goToUpper providerName ++ "_RESOURCETYPES"

/-- Source `getResourceTypeNamesFromEnvironment`: seed the set with the
provider name itself; when the resource-type variable is absent return the
seed; otherwise insert every whitespace-separated token, prepending
`providerName + "_"` to tokens that do not already carry that beginning.
The Go `map[string]bool` used as a set becomes a `Finset String`. -/
def getResourceTypeNamesFromEnvironment
    (env : String → Option String) (providerName : String) : Finset String :=
  let pfx := providerName ++ "_"
  match env (resourceTypesVarName providerName) with
  | none => {providerName}
  | some resourceTypeNames =>
    (fields resourceTypeNames).foldl
      (fun result x => insert (if pfx.data.isPrefixOf x.data then x else pfx ++ x) result)
      {providerName}

/-- Token rule applied by the registry builder's loop body to each
whitespace-separated token: keep a token that already carries the
`providerName + "_"` beginning, otherwise prepend it. -/
def normalizeResourceTypeName (providerName x : String) : String :=
  if (providerName ++ "_").data.isPrefixOf x.data then x else (providerName ++ "_") ++ x

/-- Concrete environment of the spec's registry example: the widget
resource-type variable holds `"foo widget_bar"`. -/
def envWidgetTypes : String → Option String :=
  fun k => if k = "TERRAFORM_WIDGET_RESOURCETYPES" then some "foo widget_bar" else none

/-- Dynamic Go values (`interface{}`) as the configuration reader hands
them to the normalizer.  `mapSI` models `map[string]interface{}` as an
association list, so keys are strings by construction while values stay
dynamic. -/
inductive GoValue where
  | str (s : String)
  | intV (n : Int)
  | boolV (b : Bool)
  | mapSI (entries : List (String × GoValue))
  | listV (elems : List GoValue)

/-- The single error the normalizer can produce:
`fmt.Errorf("environment - expected map[string]interface{} bit got %#v", e)`,
modelled as a constructor carrying the offending value `e`. -/
inductive ConfigError where
  | envNotMap (got : GoValue)

/-- Result pair `(interface{}, error)` of `providerConfigure`. -/
structure ConfigureResult where
  result : Option (List (String × GoValue))
  err : Option ConfigError

/-- The fixed key list the normalizer's loop walks, in source order. -/
def recognizedKeys : List String :=
  ["id_key", "executor", "script", "environment", "javascript"]

/-- The Go type assertion `e.(map[string]interface{})` as a shape test. -/
def isMapSI : GoValue → Bool
  | .mapSI _ => true
  | _ => false

/-- Shape required by the spec's invariant for the environment entry: a
map whose values are all strings.  The source never tests this; it is
stated here to compare the code's check against the spec's wording. -/
def isFlatStringMap : GoValue → Bool
  | .mapSI entries => entries.all (fun p => match p.2 with | .str _ => true | _ => false)
  | _ => false

/-- The `configurationData` map built by the normalizer's loop: one entry
per recognized key the reader reports as set (`GetOk` succeeds), in key
order; unset keys are skipped (`continue`). -/
def configurationDataOf (d : String → Option GoValue) : List (String × GoValue) :=
  recognizedKeys.filterMap (fun key => (d key).map (fun val => (key, val)))

/-- Source `providerConfigure`: build `configurationData` from the
recognized keys, then check that a supplied `environment` value is a
`map[string]interface{}`; on failure return `(nil, error)` — the built map
is discarded — and on success return `(configurationData, nil)`. -/
def providerConfigure (d : String → Option GoValue) : ConfigureResult :=
  let configurationData := configurationDataOf d
  match d "environment" with
  | some e =>
    if isMapSI e then ⟨some configurationData, none⟩
    else ⟨none, some (ConfigError.envNotMap e)⟩
  | none => ⟨some configurationData, none⟩

/-- Concrete reader supplying only `executor` and `script`. -/
def readerExecScript : String → Option GoValue :=
  fun k =>
    if k = "executor" then some (GoValue.str "python")
    else if k = "script" then some (GoValue.str "run.py")
    else none

/-- Concrete reader supplying `executor` and a non-map `environment`. -/
def readerEnvString : String → Option GoValue :=
  fun k =>
    if k = "executor" then some (GoValue.str "python")
    else if k = "environment" then some (GoValue.str "oops")
    else none

/-- Concrete reader supplying only a non-map `environment`. -/
def readerEnvStringOnly : String → Option GoValue :=
  fun k => if k = "environment" then some (GoValue.str "x") else none

/-- Concrete reader whose `environment` is a map holding a non-string
value. -/
def readerEnvIntMap : String → Option GoValue :=
  fun k =>
    if k = "environment" then some (GoValue.mapSI [("a", GoValue.intV 5)]) else none

/-- Concrete reader whose `environment` is an empty map. -/
def readerEnvEmptyMap : String → Option GoValue :=
  fun k => if k = "environment" then some (GoValue.mapSI []) else none

/-! Helper lemmas about list scanning, shared by several claims. -/

theorem takeWhile_append_of_all {q : Char → Bool} {a : List Char} (b : List Char)
    (h : ∀ c ∈ a, q c = true) : (a ++ b).takeWhile q = a ++ b.takeWhile q := by
  induction a with
  | nil => simp
  | cons c cs ih =>
    simp only [List.cons_append, List.takeWhile_cons, h c (by simp)]
    simp [ih fun x hx => h x (by simp [hx])]

theorem dropWhile_append_of_all {q : Char → Bool} {a : List Char} (b : List Char)
    (h : ∀ c ∈ a, q c = true) : (a ++ b).dropWhile q = b.dropWhile q := by
  induction a with
  | nil => simp
  | cons c cs ih =>
    simp only [List.cons_append, List.dropWhile_cons, h c (by simp)]
    simp [ih fun x hx => h x (by simp [hx])]

theorem isPrefixOf_append_self (a b : List Char) : a.isPrefixOf (a ++ b) = true := by
  rw [List.isPrefixOf_iff_prefix]
  exact List.prefix_append a b

/-- Version group matches any `M.m.p` with nonempty digit runs. -/
theorem isVersion_three {M m p : List Char}
    (hM : M ≠ []) (hMd : ∀ c ∈ M, c.isDigit = true)
    (hm : m ≠ []) (hmd : ∀ c ∈ m, c.isDigit = true)
    (hp : p ≠ []) (hpd : ∀ c ∈ p, c.isDigit = true) :
    isVersion (M ++ '.' :: (m ++ '.' :: p)) = true := by
  have ht1 : (M ++ '.' :: (m ++ '.' :: p)).takeWhile Char.isDigit = M := by
    rw [takeWhile_append_of_all _ hMd, List.takeWhile_cons]
    simp
  have hd1 : (M ++ '.' :: (m ++ '.' :: p)).dropWhile Char.isDigit = '.' :: (m ++ '.' :: p) := by
    rw [dropWhile_append_of_all _ hMd, List.dropWhile_cons]
    simp
  have ht2 : (m ++ '.' :: p).takeWhile Char.isDigit = m := by
    rw [takeWhile_append_of_all _ hmd, List.takeWhile_cons]
    simp
  have hd2 : (m ++ '.' :: p).dropWhile Char.isDigit = '.' :: p := by
    rw [dropWhile_append_of_all _ hmd, List.dropWhile_cons]
    simp
  have ht3 : p.takeWhile Char.isDigit = p := List.takeWhile_eq_self_iff.mpr hpd
  have hd3 : p.dropWhile Char.isDigit = [] := List.dropWhile_eq_nil_iff.mpr hpd
  simp only [isVersion, ht1, hd1, ht2, hd2, ht3, hd3]
  simp [List.isEmpty_iff, hM, hm, hp]

/-- The matcher on a binary name `terraform-provider-<name>` with a
nonempty all-non-digit name captures exactly the name. -/
theorem findName_plain (name : String) (hne : name.data ≠ [])
    (hnd : ∀ c ∈ name.data, c.isDigit = false) :
    findName ("terraform-provider-" ++ name) = some name := by
  have hdata : ("terraform-provider-" ++ name).data = tfAnchor ++ name.data := by
    simp [tfAnchor, String.data_append]
  have hpre := isPrefixOf_append_self tfAnchor name.data
  simp only [findName, hdata, hpre, if_true]
  rw [List.drop_left]
  have htw : name.data.takeWhile (fun c => !c.isDigit) = name.data :=
    List.takeWhile_eq_self_iff.mpr (fun c hc => by simp [hnd c hc])
  rw [htw]
  obtain ⟨n, hn⟩ : ∃ k, name.data.length = k + 1 :=
    ⟨name.data.length - 1, by have := List.length_pos.mpr hne; omega⟩
  rw [hn]
  simp only [findDown]
  rw [← hn, List.drop_length, List.take_length]
  simp [tailMatches]

/-- The matcher on `terraform-provider-<name>-<M>.<m>.<p>` (nonempty
all-non-digit name, nonempty digit runs `M`, `m`, `p`): the greedy name
group first tries to absorb the dash before the version, the tail then
fails to match, and backtracking settles on exactly the name with the
version suffix stripped. -/
theorem findName_versioned (name M m p : String)
    (hne : name.data ≠ []) (hnd : ∀ c ∈ name.data, c.isDigit = false)
    (hMne : M.data ≠ []) (hMd : ∀ c ∈ M.data, c.isDigit = true)
    (hmne : m.data ≠ []) (hmd : ∀ c ∈ m.data, c.isDigit = true)
    (hpne : p.data ≠ []) (hpd : ∀ c ∈ p.data, c.isDigit = true) :
    findName ("terraform-provider-" ++ name ++ "-" ++ M ++ "." ++ m ++ "." ++ p)
      = some name := by
  obtain ⟨Mc, Mt, hM⟩ := List.exists_cons_of_ne_nil hMne
  have hMc : Mc.isDigit = true := hMd Mc (by rw [hM]; exact List.mem_cons_self Mc Mt)
  have hMcd : (Mc == '-') = false := by
    refine beq_eq_false_iff_ne.mpr (fun h => ?_)
    rw [h] at hMc
    exact absurd hMc (by decide)
  set w : List Char := M.data ++ '.' :: (m.data ++ '.' :: p.data) with hw
  have hdata : ("terraform-provider-" ++ name ++ "-" ++ M ++ "." ++ m ++ "." ++ p).data
      = tfAnchor ++ (name.data ++ '-' :: w) := by
    simp [tfAnchor, hw, String.data_append, List.append_assoc]
  have hpre := isPrefixOf_append_self tfAnchor (name.data ++ '-' :: w)
  simp only [findName, hdata, hpre, if_true]
  rw [List.drop_left]
  have hwcons : w = Mc :: (Mt ++ '.' :: (m.data ++ '.' :: p.data)) := by
    rw [hw, hM, List.cons_append]
  have htw : ((name.data ++ '-' :: w).takeWhile (fun c => !c.isDigit))
      = name.data ++ ['-'] := by
    rw [takeWhile_append_of_all _ (fun c hc => by simp [hnd c hc]), List.takeWhile_cons]
    have hdash : (!Char.isDigit '-') = true := by decide
    simp only [hdash, if_true]
    rw [hwcons, List.takeWhile_cons]
    simp [hMc]
  rw [htw]
  obtain ⟨n, hn⟩ : ∃ k, name.data.length = k + 1 :=
    ⟨name.data.length - 1, by have := List.length_pos.mpr hne; omega⟩
  have hk : (name.data ++ ['-']).length = n + 2 := by simp [hn]
  rw [hk]
  simp only [findDown]
  have hsplit : name.data ++ '-' :: w = (name.data ++ ['-']) ++ w := by simp
  have hdrop2 : (name.data ++ '-' :: w).drop (n + 2) = w := by
    rw [hsplit, ← hk, List.drop_left]
  have htm2 : tailMatches w = false := by
    rw [hwcons]
    simp [tailMatches, hMcd]
  rw [hdrop2, htm2]
  simp only [Bool.false_eq_true, if_false]
  have hdrop1 : (name.data ++ '-' :: w).drop (n + 1) = '-' :: w := by
    rw [← hn, List.drop_left]
  have hver : isVersion w = true := by
    rw [hw]
    exact isVersion_three hMne hMd hmne hmd hpne hpd
  have htm1 : tailMatches ('-' :: w) = true := by
    simp only [tailMatches, show ('-' == '-') = true from rfl, Bool.true_and]
    have hany : (List.range (w.length + 1)).any
        (fun i => isVersion (w.take i) && optPre (w.drop i)) = true := by
      rw [List.any_eq_true]
      refine ⟨w.length, List.mem_range.mpr (Nat.lt_succ_self _), ?_⟩
      rw [List.take_length, List.drop_length]
      simp [hver, optPre]
    simp [hany]
  rw [hdrop1, htm1]
  simp only [if_true]
  have htake : (name.data ++ '-' :: w).take (n + 1) = name.data := by
    rw [← hn, List.take_left]
  rw [htake]
  rfl

/-- C4: whenever the provider-name override variable is set — including to
the empty string — identity resolution returns exactly the override value,
regardless of the process's binary name. -/
theorem providerName_override_env_var_wins
    (env : String → Option String) (argv0 v : String)
    (h : env EnvProviderNameVar = some v) :
    getProviderNameFromBinaryOrEnvironment env argv0 = v := by
  simp [getProviderNameFromBinaryOrEnvironment, h]

/-- Witness for C4: override set to the empty string wins even though the
binary name would otherwise resolve to `widget`. -/
theorem providerName_override_env_var_wins_witness :
    getProviderNameFromBinaryOrEnvironment
      (fun k => if k = "TERRAFORM_UNIVERSE_PROVIDERNAME" then some "" else none)
      "terraform-provider-widget" = "" :=
  providerName_override_env_var_wins _ _ "" rfl

/-- C5: without an override, a binary name `terraform-provider-<name>`
with `<name>` one or more non-digit characters resolves to `<name>`, and
so does `terraform-provider-<name>-<major>.<minor>.<patch>` for nonempty
digit runs `<major>`, `<minor>`, `<patch>` (version suffix stripped). -/
theorem providerName_from_binary_name
    (env : String → Option String) (argv0 name M m p : String)
    (henv : env EnvProviderNameVar = none)
    (hne : name.data ≠ []) (hnd : ∀ c ∈ name.data, c.isDigit = false)
    (hMne : M.data ≠ []) (hMd : ∀ c ∈ M.data, c.isDigit = true)
    (hmne : m.data ≠ []) (hmd : ∀ c ∈ m.data, c.isDigit = true)
    (hpne : p.data ≠ []) (hpd : ∀ c ∈ p.data, c.isDigit = true) :
    (filepathBase argv0 = "terraform-provider-" ++ name →
      getProviderNameFromBinaryOrEnvironment env argv0 = name) ∧
    (filepathBase argv0 = "terraform-provider-" ++ name ++ "-" ++ M ++ "." ++ m ++ "." ++ p →
      getProviderNameFromBinaryOrEnvironment env argv0 = name) := by
  constructor
  · intro hbase
    simp [getProviderNameFromBinaryOrEnvironment, henv, hbase,
      findName_plain name hne hnd]
  · intro hbase
    simp [getProviderNameFromBinaryOrEnvironment, henv, hbase,
      findName_versioned name M m p hne hnd hMne hMd hmne hmd hpne hpd]

/-- Witness for C5: `terraform-provider-widget` resolves to `widget` and
`terraform-provider-widget-1.2.3` resolves to `widget`. -/
theorem providerName_from_binary_name_witness :
    getProviderNameFromBinaryOrEnvironment (fun _ => none) "terraform-provider-widget"
        = "widget" ∧
    getProviderNameFromBinaryOrEnvironment (fun _ => none) "terraform-provider-widget-1.2.3"
        = "widget" :=
  ⟨(providerName_from_binary_name (fun _ => none) "terraform-provider-widget"
      "widget" "1" "2" "3" rfl (by decide) (by decide) (by decide) (by decide)
      (by decide) (by decide) (by decide) (by decide)).1 (by decide),
   (providerName_from_binary_name (fun _ => none) "terraform-provider-widget-1.2.3"
      "widget" "1" "2" "3" rfl (by decide) (by decide) (by decide) (by decide)
      (by decide) (by decide) (by decide) (by decide)).2 (by decide)⟩

/-- C6: without an override, a binary name the regex does not match
resolves to the fixed default identity `DefaultProviderName`; resolution
is a total function, so it always yields some string and has no error
path. -/
theorem providerName_default_when_binary_unmatched
    (env : String → Option String) (argv0 : String)
    (henv : env EnvProviderNameVar = none)
    (hmatch : findName (filepathBase argv0) = none) :
    getProviderNameFromBinaryOrEnvironment env argv0 = DefaultProviderName := by
  simp [getProviderNameFromBinaryOrEnvironment, henv, hmatch]

/-- Witness for C6: the test-harness binary name `debug.test` resolves to
the default identity. -/
theorem providerName_default_when_binary_unmatched_witness :
    getProviderNameFromBinaryOrEnvironment (fun _ => none) "debug.test"
      = DefaultProviderName :=
  providerName_default_when_binary_unmatched (fun _ => none) "debug.test" rfl (by decide)

/-- Membership in the registry builder's fold: an element is in the result
exactly when it is in the seed or is the normalized form of some token. -/
theorem mem_buildFold (pfx : String) (l : List String) :
    ∀ (acc : Finset String) (y : String),
      (y ∈ l.foldl
          (fun result x =>
            insert (if pfx.data.isPrefixOf x.data then x else pfx ++ x) result) acc
        ↔ y ∈ acc ∨ ∃ x ∈ l, (if pfx.data.isPrefixOf x.data then x else pfx ++ x) = y) := by
  induction l with
  | nil => intro acc y; simp
  | cons a t ih =>
    intro acc y
    rw [List.foldl_cons, ih]
    constructor
    · rintro (hy | ⟨x, hx, hfx⟩)
      · rcases Finset.mem_insert.mp hy with hy | hy
        · exact Or.inr ⟨a, List.mem_cons_self a t, hy.symm⟩
        · exact Or.inl hy
      · exact Or.inr ⟨x, List.mem_cons_of_mem a hx, hfx⟩
    · rintro (hy | ⟨x, hx, hfx⟩)
      · exact Or.inl (Finset.mem_insert_of_mem hy)
      · rcases List.mem_cons.mp hx with rfl | hx
        · exact Or.inl (hfx ▸ Finset.mem_insert_self _ _)
        · exact Or.inr ⟨x, hx, hfx⟩

/-- C7: for every identity and environment, the built resource-type set
contains the identity itself, and every member is either exactly the
identity or begins with `identity ++ "_"`. -/
theorem resourceTypeSet_members_namespaced
    (env : String → Option String) (pn : String) :
    pn ∈ getResourceTypeNamesFromEnvironment env pn ∧
    ∀ x ∈ getResourceTypeNamesFromEnvironment env pn,
      x = pn ∨ (pn ++ "_").data.isPrefixOf x.data = true := by
  cases h : env (resourceTypesVarName pn) with
  | none =>
    simp only [getResourceTypeNamesFromEnvironment, h]
    simp
  | some v =>
    simp only [getResourceTypeNamesFromEnvironment, h]
    constructor
    · rw [mem_buildFold]
      exact Or.inl (Finset.mem_singleton_self pn)
    · intro x hx
      rw [mem_buildFold] at hx
      rcases hx with hx | ⟨t, _, rfl⟩
      · exact Or.inl (Finset.mem_singleton.mp hx)
      · by_cases hp : (pn ++ "_").data.isPrefixOf t.data = true
        · rw [if_pos hp]
          exact Or.inr hp
        · rw [if_neg hp]
          refine Or.inr ?_
          rw [String.data_append]
          exact isPrefixOf_append_self _ _

/-- Witness for C7: the identity is a member of the set it seeds. -/
theorem resourceTypeSet_members_namespaced_witness :
    "widget" ∈ getResourceTypeNamesFromEnvironment (fun _ => none) "widget" :=
  (resourceTypeSet_members_namespaced (fun _ => none) "widget").1

/-- C8: with the resource-type variable present, the built set is the seed
plus each whitespace-separated token kept as-is when it already starts
with `identity ++ "_"` and prefixed otherwise, duplicates collapsing; in
particular identity `widget` with value `"foo widget_bar"` yields
`{widget, widget_foo, widget_bar}`. -/
theorem resourceTypeSet_token_normalization :
    (∀ (env : String → Option String) (pn v : String),
      env (resourceTypesVarName pn) = some v →
      getResourceTypeNamesFromEnvironment env pn =
        {pn} ∪ ((fields v).map (normalizeResourceTypeName pn)).toFinset) ∧
    getResourceTypeNamesFromEnvironment envWidgetTypes "widget" =
      {"widget", "widget_foo", "widget_bar"} := by
  constructor
  · intro env pn v h
    simp only [getResourceTypeNamesFromEnvironment, h]
    ext y
    rw [mem_buildFold]
    simp [normalizeResourceTypeName]
  · decide

/-- Witness for C8: the general token characterization applied to the
spec's concrete example. -/
theorem resourceTypeSet_token_normalization_witness :
    getResourceTypeNamesFromEnvironment envWidgetTypes "widget" =
      {"widget"} ∪
        ((fields "foo widget_bar").map (normalizeResourceTypeName "widget")).toFinset :=
  resourceTypeSet_token_normalization.1 envWidgetTypes "widget" "foo widget_bar" (by decide)

/-- C9: when the resource-type variable derived from the identity is
absent, the built set is exactly the singleton of the identity. -/
theorem resourceTypeSet_absent_var_singleton
    (env : String → Option String) (pn : String)
    (h : env (resourceTypesVarName pn) = none) :
    getResourceTypeNamesFromEnvironment env pn = {pn} := by
  simp only [getResourceTypeNamesFromEnvironment, h]

/-- Witness for C9: no environment at all yields `{widget}`. -/
theorem resourceTypeSet_absent_var_singleton_witness :
    getResourceTypeNamesFromEnvironment (fun _ => none) "widget" = {"widget"} :=
  resourceTypeSet_absent_var_singleton (fun _ => none) "widget" rfl

/-- Membership in the built configuration map: an entry is present exactly
when its key is recognized and the reader reports that key as supplied
with that value. -/
theorem mem_configurationDataOf (d : String → Option GoValue) (k : String) (v : GoValue) :
    (k, v) ∈ configurationDataOf d ↔ k ∈ recognizedKeys ∧ d k = some v := by
  simp only [configurationDataOf, List.mem_filterMap, Option.map_eq_some']
  constructor
  · rintro ⟨a, ha, b, hb, hba⟩
    obtain ⟨rfl, rfl⟩ := Prod.mk.injEq .. ▸ hba
    exact ⟨ha, hb⟩
  · rintro ⟨hk, hv⟩
    exact ⟨k, hk, v, hv, rfl⟩

/-- C1: normalization returns an error exactly when an `environment` value
was supplied and that value is not a `map[string]interface{}`; with the
entry absent or a map, normalization succeeds with no error. -/
theorem providerConfigure_error_iff_environment_not_map
    (d : String → Option GoValue) :
    (providerConfigure d).err.isSome = true ↔
      ∃ e, d "environment" = some e ∧ isMapSI e = false := by
  cases h : d "environment" with
  | none => simp [providerConfigure, h]
  | some e =>
    cases he : isMapSI e with
    | false => simp [providerConfigure, h, he]
    | true => simp [providerConfigure, h, he]

/-- Counterexample for C2 as stated: with `executor` supplied and
`environment` a plain string, the loop does build a partial configuration
map holding both recognized keys, but the caller receives `nil` (`none`),
not that map — only the error carrying the offending value comes back. -/
theorem providerConfigure_error_discards_built_map :
    configurationDataOf readerEnvString =
        [("executor", GoValue.str "python"), ("environment", GoValue.str "oops")] ∧
    (providerConfigure readerEnvString).result = none ∧
    (providerConfigure readerEnvString).err =
        some (ConfigError.envNotMap (GoValue.str "oops")) :=
  ⟨rfl, rfl, rfl⟩

/-- C2 amended: when the supplied `environment` value is not a map, the
caller receives no configuration map at all (`nil`), accompanied by the
descriptive error identifying the offending value. -/
theorem providerConfigure_environment_not_map_returns_nil
    (d : String → Option GoValue) (e : GoValue)
    (h1 : d "environment" = some e) (h2 : isMapSI e = false) :
    (providerConfigure d).result = none ∧
    (providerConfigure d).err = some (ConfigError.envNotMap e) := by
  rw [providerConfigure, h1]
  simp [h2]

/-- Witness for the amended C2. -/
theorem providerConfigure_environment_not_map_returns_nil_witness :
    (providerConfigure readerEnvStringOnly).result = none ∧
    (providerConfigure readerEnvStringOnly).err =
      some (ConfigError.envNotMap (GoValue.str "x")) :=
  providerConfigure_environment_not_map_returns_nil readerEnvStringOnly
    (GoValue.str "x") rfl rfl

/-- Counterexample for C3 as stated: a supplied `environment` map holding
a non-string value is accepted without error, and the snapshot then
contains an `environment` entry that is not a flat string-to-string
mapping — the code checks only the map shape, not the value types. -/
theorem providerConfigure_accepts_environment_with_non_string_value :
    (providerConfigure readerEnvIntMap).err = none ∧
    (providerConfigure readerEnvIntMap).result =
        some [("environment", GoValue.mapSI [("a", GoValue.intV 5)])] ∧
    isFlatStringMap (GoValue.mapSI [("a", GoValue.intV 5)]) = false :=
  ⟨rfl, rfl, rfl⟩

/-- C3 amended: for every configuration accepted by normalization, an
`environment` entry of the snapshot is a `map[string]interface{}` — a
string-keyed mapping — but its values are not checked to be strings. -/
theorem providerConfigure_snapshot_environment_entry_is_map
    (d : String → Option GoValue) (snap : List (String × GoValue)) (v : GoValue)
    (hres : (providerConfigure d).result = some snap)
    (hmem : ("environment", v) ∈ snap) : isMapSI v = true := by
  have hd : d "environment" = some v := by
    cases h : d "environment" with
    | none =>
      rw [providerConfigure, h] at hres
      obtain rfl : configurationDataOf d = snap := by
        simpa using hres
      have := (mem_configurationDataOf d "environment" v).mp hmem
      rw [h] at this
      exact absurd this.2 (by simp)
    | some e =>
      cases he : isMapSI e with
      | false =>
        rw [providerConfigure, h] at hres
        simp [he] at hres
      | true =>
        rw [providerConfigure, h] at hres
        simp only [he, if_true] at hres
        obtain rfl : configurationDataOf d = snap := by
          simpa using hres
        have := (mem_configurationDataOf d "environment" v).mp hmem
        rw [← h]
        exact this.2
  cases he : isMapSI v with
  | true => rfl
  | false =>
    rw [providerConfigure, hd] at hres
    simp [he] at hres

/-- Witness for the amended C3: an accepted empty environment map. -/
theorem providerConfigure_snapshot_environment_entry_is_map_witness :
    isMapSI (GoValue.mapSI []) = true :=
  providerConfigure_snapshot_environment_entry_is_map readerEnvEmptyMap
    [("environment", GoValue.mapSI [])] (GoValue.mapSI []) rfl
    (List.mem_singleton.mpr rfl)

/-- C10: a successful normalization returns the built configuration map,
whose entries are exactly the recognized keys the reader reports as
supplied — unset keys are absent, not zero-filled. -/
theorem providerConfigure_snapshot_exact_keys
    (d : String → Option GoValue)
    (h : (providerConfigure d).err = none) :
    (providerConfigure d).result = some (configurationDataOf d) ∧
    ∀ k v, ((k, v) ∈ configurationDataOf d ↔ k ∈ recognizedKeys ∧ d k = some v) := by
  refine ⟨?_, fun k v => mem_configurationDataOf d k v⟩
  cases he : d "environment" with
  | none => rw [providerConfigure, he]
  | some e =>
    cases hm : isMapSI e with
    | false =>
      rw [providerConfigure, he] at h
      simp [hm] at h
    | true =>
      rw [providerConfigure, he]
      simp [hm]

/-- Witness for C10: with only `executor` and `script` supplied the
snapshot holds exactly those two keys. -/
theorem providerConfigure_snapshot_exact_keys_witness :
    (providerConfigure readerExecScript).result =
      some [("executor", GoValue.str "python"), ("script", GoValue.str "run.py")] :=
  (providerConfigure_snapshot_exact_keys readerExecScript rfl).1

/-- Witness for C1: a string-valued `environment` makes the error case of
the equivalence fire on a concrete reader. -/
theorem providerConfigure_error_iff_environment_not_map_witness :
    (providerConfigure readerEnvStringOnly).err.isSome = true :=
  (providerConfigure_error_iff_environment_not_map readerEnvStringOnly).mpr
    ⟨GoValue.str "x", rfl, rfl⟩
